import Mathlib

/-!
Verification of the kafka-microservice repository core logic.

The four Go services are shallowly embedded as pure Lean functions:
Go maps become association lists over String keys, the in-memory
inventory becomes an explicit `Ledger` value threaded through the
operations, and the Kafka bus becomes explicit lists of produced
messages.  Go `int` quantities are modelled as unbounded `Int`
(no claim exercises 64-bit overflow).  JSON payloads are modelled as
the already-decoded structured values; monetary totals (Go `float64`)
are carried opaquely as `Rat` and never computed with.
-/

/-- Association-list model of a Go `map[string]α`: first binding wins
(the model keeps keys unique, matching map semantics). -/
def alookup {α : Type} (k : String) : List (String × α) → Option α
  | [] => none
  | (k₂, v) :: rest => if k₂ = k then some v else alookup k rest

/-- Model of Go map assignment `m[k] = v`: replace the existing binding
or append a new one. -/
def aset {α : Type} (k : String) (v : α) : List (String × α) → List (String × α)
  | [] => [(k, v)]
  | (k₂, v₂) :: rest => if k₂ = k then (k, v) :: rest else (k₂, v₂) :: aset k v rest

/-- The inventory ledger: SKU to quantity, as held by stock-service in
`inventory map[string]int`. -/
abbrev Ledger := List (String × Int)

/-- Go map read with zero default: `inventory[sku]` yields 0 for a
missing key. -/
def Ledger.getQty (sku : String) (l : Ledger) : Int :=
  (alookup sku l).getD 0

/-- The initial value of stock-service's `inventory` map. -/
def initialInventory : Ledger :=
  [("S1", 50), ("S2", 30), ("S3", 25), ("S4", 15)]

/-- stock-service `decrement`: under the global mutex it runs
`inventory[sku] = inventory[sku] - qty` and returns the new value.
The ledger is passed and returned explicitly; the missing-key read
defaults to 0 as in Go. -/
def decrement (sku : String) (qty : Int) (l : Ledger) : Int × Ledger :=
  let n := Ledger.getQty sku l - qty
  (n, aset sku n l)

/-- stock-service `/seed` handler body: `for k, v := range in`,
`inventory[k] = v` — per-key overwrite merge of the posted mapping
into the ledger.  The Go map iteration is modelled by list order. -/
def seedAll (m : List (String × Int)) (l : Ledger) : Ledger :=
  m.foldl (fun acc kv => aset kv.1 kv.2 acc) l

/-- A line item of an order, as in all four services. -/
structure OrderItem where
  sku : String
  qty : Int
deriving DecidableEq

/-- orders-api `CreateOrderRequest` (decoded JSON body of POST /orders). -/
structure CreateOrderRequest where
  userId : String
  items : List OrderItem
  total : Rat
  currency : String
deriving DecidableEq

/-- The `OrderCreated` event emitted to the creation topic. -/
structure OrderCreated where
  orderId : String
  userId : String
  items : List OrderItem
  total : Rat
  currency : String
  createdAt : String
deriving DecidableEq

/-- Stock validation errors returned by `checkStockAvailability`,
kept structured so the data each error carries is explicit. -/
inductive StockError where
  | notExists (sku : String)
  | insufficient (sku : String) (requested available : Int)
deriving DecidableEq

/-- The message text of each stock error, mirroring the two
`fmt.Errorf` format strings in orders-api. -/
def errMsg : StockError → String
  | .notExists sku => "product " ++ sku ++ " does not exist"
  | .insufficient sku req avail =>
      "insufficient stock for " ++ sku ++ ": requested " ++ toString req
        ++ ", available " ++ toString avail

/-- orders-api `checkStockAvailability`: against the fetched stock
snapshot, scan the items in order; a missing SKU or an available
quantity below the requested one short-circuits with the
corresponding error; otherwise validation succeeds (`none`). -/
def checkStockAvailability (stock : Ledger) : List OrderItem → Option StockError
  | [] => none
  | it :: rest =>
    match alookup it.sku stock with
    | none => some (.notExists it.sku)
    | some available =>
      if available < it.qty then some (.insufficient it.sku it.qty available)
      else checkStockAvailability stock rest

/-- The violation a single item triggers against a snapshot, if any:
the per-item check factored out of `checkStockAvailability` for
stating first-violation theorems. -/
def itemViolation (stock : Ledger) (it : OrderItem) : Option StockError :=
  match alookup it.sku stock with
  | none => some (.notExists it.sku)
  | some available =>
    if available < it.qty then some (.insufficient it.sku it.qty available)
    else none

/-- Outcome of the POST /orders handler. -/
inductive HandlerRes where
  | conflict (msg : String)
  | created (orderId : String)
  | produceFailed
deriving DecidableEq

/-- A record produced to the creation topic: key is the order id. -/
structure CreationMsg where
  key : String
  value : OrderCreated
deriving DecidableEq

/-- The `OrderCreated` event the handler builds from a request,
a fresh order id and the creation timestamp. -/
def mkOrderCreated (req : CreateOrderRequest) (orderId ts : String) : OrderCreated :=
  { orderId := orderId, userId := req.userId, items := req.items,
    total := req.total, currency := req.currency, createdAt := ts }

/-- orders-api POST /orders handler on a decoded request: validate
against the stock snapshot; on failure answer 409 with the error text
and write nothing; on success emit one creation record keyed by the
fresh order id (`writeOk` abstracts whether the bus accepted the
write; the returned list holds the records the bus accepted). -/
def ordersHandler (stock : Ledger) (req : CreateOrderRequest) (orderId ts : String)
    (writeOk : Bool) : HandlerRes × List CreationMsg :=
  match checkStockAvailability stock req.items with
  | some e => (.conflict (errMsg e), [])
  | none =>
    if writeOk then (.created orderId, [⟨orderId, mkOrderCreated req orderId ts⟩])
    else (.produceFailed, [])

/-- stock-service consume loop, effect of one `OrderCreated` event on
the ledger: decrement every item in order. -/
def applyOrder (l : Ledger) (oc : OrderCreated) : Ledger :=
  oc.items.foldl (fun acc it => (decrement it.sku it.qty acc).2) l

/-- Ledger state after the stock-service consumer has processed a list
of creation events. -/
def applyEvents (l : Ledger) (evts : List OrderCreated) : Ledger :=
  evts.foldl applyOrder l

/-- `pat` occurs as a contiguous substring of `s`. -/
def StrContains (s pat : String) : Prop :=
  ∃ a b : String, s = a ++ pat ++ b

/-- Backoff before retrying after the given failed attempt, in
milliseconds: `time.Duration(100*math.Pow(2, float64(attempt))) *
time.Millisecond` (exact for the small exponents the loop reaches). -/
def backoffMs (attempt : Nat) : Nat := 100 * 2 ^ attempt

/-- Outcome of `writeWithRetry`: bus write succeeded, the caller's
context fired mid-backoff, or all attempts failed and the last error
is surfaced.  Each constructor records how many write attempts were
made and the list of completed backoff sleeps, in order. -/
inductive WriteResult where
  | ok (attemptsUsed : Nat) (sleeps : List Nat)
  | ctxCancelled (attemptsUsed : Nat) (sleeps : List Nat)
  | exhausted (attemptsUsed : Nat) (sleeps : List Nat) (lastErr : String)
deriving DecidableEq

/-- Write attempts made before `writeWithRetry` returned. -/
def WriteResult.attemptsUsed : WriteResult → Nat
  | .ok n _ => n
  | .ctxCancelled n _ => n
  | .exhausted n _ _ => n

/-- Completed backoff sleeps, in order, in milliseconds. -/
def WriteResult.sleepsDone : WriteResult → List Nat
  | .ok _ s => s
  | .ctxCancelled _ s => s
  | .exhausted _ s _ => s

/-- Body of the `writeWithRetry` loop from attempt number `attempt` with
`fuel` further attempts allowed after this one (`fuel = maxRetries -
attempt`).  `outcome a` is the bus answer to attempt `a` (`none` =
delivered); `cancelled a` is whether the context fires during the
backoff that follows a failed attempt `a` (the select between
`ctx.Done()` and the backoff timer). -/
def retryGo (outcome : Nat → Option String) (cancelled : Nat → Bool)
    (attempt : Nat) (sleeps : List Nat) : Nat → WriteResult
  | 0 =>
    match outcome attempt with
    | none => .ok (attempt + 1) sleeps
    | some e => .exhausted (attempt + 1) sleeps e
  | fuel + 1 =>
    match outcome attempt with
    | none => .ok (attempt + 1) sleeps
    | some _ =>
      if cancelled attempt then .ctxCancelled (attempt + 1) sleeps
      else retryGo outcome cancelled (attempt + 1) (sleeps ++ [backoffMs attempt]) fuel

/-- orders-processor `writeWithRetry`: up to `maxRetries + 1` attempts,
exponential backoff between consecutive attempts, abortable
mid-backoff by the context.  The call site uses `maxRetries = 4`. -/
def writeWithRetry (outcome : Nat → Option String) (cancelled : Nat → Bool)
    (maxRetries : Nat) : WriteResult :=
  retryGo outcome cancelled 0 [] maxRetries

/-- `OrderStatus` event as produced to the status topic. -/
structure OrderStatus where
  orderId : String
  status : String
  reason : String
  updatedAt : String
deriving DecidableEq

/-- A record produced to the status topic, keyed by
`[]byte(oc.OrderID)`. -/
structure StatusMsg where
  key : String
  value : OrderStatus
deriving DecidableEq

/-- orders-processor loop body for one decoded creation event: after
the fixed simulated delay, build the unconditional PAID status stamped
with time `ts` and key the record by the order id. -/
def statusMsgFor (ts : String) (oc : OrderCreated) : StatusMsg :=
  ⟨oc.orderId, ⟨oc.orderId, "PAID", "", ts⟩⟩

/-- The status records the orders-processor hands to the producer for a
list of decoded creation events (deliveries accepted). -/
def processLoop (ts : String) (events : List OrderCreated) : List StatusMsg :=
  events.map (statusMsgFor ts)

/-- A subscriber channel of notifications-api: `make(chan []byte, 8)`,
modelled by its capacity and current buffer contents. -/
structure NotifChan where
  cap : Nat
  buf : List OrderStatus
deriving DecidableEq

/-- The subscriber registry `subs map[string][]chan []byte`:
order id to list of live channels. -/
abbrev Subs := List (String × List NotifChan)

/-- notifications-api `subscribe`: a fresh channel with buffer
capacity 8 appended to the registry entry of the order id. -/
def subscribe (orderId : String) (subs : Subs) : Subs :=
  aset orderId ((alookup orderId subs).getD [] ++ [⟨8, []⟩]) subs

/-- The non-blocking `select` send: enqueue when the buffer has space,
silently drop when it is full. -/
def enqueueNonBlocking (ch : NotifChan) (st : OrderStatus) : NotifChan :=
  if ch.buf.length < ch.cap then { ch with buf := ch.buf ++ [st] } else ch

/-- notifications-api `broadcast`: extract the order id from the decoded
status payload, then attempt a non-blocking enqueue onto every channel
currently subscribed to exactly that order id; entries under other
order ids are untouched. -/
def broadcast (st : OrderStatus) (subs : Subs) : Subs :=
  subs.map (fun e =>
    if e.1 = st.orderId then (e.1, e.2.map (fun ch => enqueueNonBlocking ch st)) else e)

/-- One of the two concurrent callers of `decrement` in the
interleaving model: its program counter and the value its
read-modify-write has read.  pc 0: waiting on `mu.Lock()`; pc 1: holds
the lock, about to read `inventory[sku]`; pc 2: has read into
`localVal`, about to write `localVal - qty`; pc 3: has written, about
to `mu.Unlock()`; pc 4: returned. -/
structure DecThread where
  pc : Nat
  localVal : Int
deriving DecidableEq

/-- Shared state of the two-caller interleaving model of `decrement`:
the mutex (`none` = free, `some who` = held by that caller), the
inventory map, and both callers. -/
structure DecSys where
  lock : Option Bool
  inv : Ledger
  th0 : DecThread
  th1 : DecThread
deriving DecidableEq

/-- One small step of the named caller running `decrement sku qty`
(with `qty` being `q0` for the first caller and `q1` for the second):
lock acquisition blocks (is a no-op) while the other caller holds the
mutex; the read and the write of `inventory[sku] = inventory[sku] -
qty` are separate steps, both inside the critical section, exactly as
the mutex in the source makes them. -/
def decStep (sku : String) (q0 q1 : Int) (s : DecSys) : Bool → DecSys
  | false =>
    match s.th0.pc with
    | 0 => if s.lock = none then
             { s with th0 := { s.th0 with pc := 1 }, lock := some false }
           else s
    | 1 => { s with th0 := { pc := 2, localVal := Ledger.getQty sku s.inv } }
    | 2 => { s with th0 := { s.th0 with pc := 3 }, inv := aset sku (s.th0.localVal - q0) s.inv }
    | 3 => { s with th0 := { s.th0 with pc := 4 }, lock := none }
    | _ => s
  | true =>
    match s.th1.pc with
    | 0 => if s.lock = none then
             { s with th1 := { s.th1 with pc := 1 }, lock := some true }
           else s
    | 1 => { s with th1 := { pc := 2, localVal := Ledger.getQty sku s.inv } }
    | 2 => { s with th1 := { s.th1 with pc := 3 }, inv := aset sku (s.th1.localVal - q1) s.inv }
    | 3 => { s with th1 := { s.th1 with pc := 4 }, lock := none }
    | _ => s

/-- Run a schedule: at each scheduler decision the named caller takes
its next enabled step (a blocked or finished caller idles). -/
def decRun (sku : String) (q0 q1 : Int) (s : DecSys) (sched : List Bool) : DecSys :=
  sched.foldl (decStep sku q0 q1) s

/-- Initial state: mutex free, both callers about to call
`decrement`. -/
def decInit (l : Ledger) : DecSys :=
  ⟨none, l, ⟨0, 0⟩, ⟨0, 0⟩⟩

/-- Inductive invariant of the interleaving model: mutual exclusion via
the mutex, the ledger reflects exactly the decrements already written,
and a caller between its read and its write has read the current
value. -/
def DecInv (sku : String) (q0 q1 Q : Int) (s : DecSys) : Prop :=
  s.th0.pc ≤ 4 ∧ s.th1.pc ≤ 4 ∧
  (s.lock = some false ↔ (1 ≤ s.th0.pc ∧ s.th0.pc ≤ 3)) ∧
  (s.lock = some true ↔ (1 ≤ s.th1.pc ∧ s.th1.pc ≤ 3)) ∧
  Ledger.getQty sku s.inv
    = Q - (if 3 ≤ s.th0.pc then q0 else 0) - (if 3 ≤ s.th1.pc then q1 else 0) ∧
  (s.th0.pc = 2 → s.th0.localVal = Ledger.getQty sku s.inv) ∧
  (s.th1.pc = 2 → s.th1.localVal = Ledger.getQty sku s.inv)

/-- The snapshot mapping the C4 claim asserts for the first seed
round trip, taken verbatim from its words: exactly S1 to 50 and
S2 to 30 and nothing else. -/
def c4ClaimedSnapshot : String → Option Int :=
  fun k => if k = "S1" then some 50 else if k = "S2" then some 30 else none

theorem alookup_aset_self {α : Type} (k : String) (v : α) (l : List (String × α)) :
    alookup k (aset k v l) = some v := by
  induction l with
  | nil => simp [aset, alookup]
  | cons hd tl ih =>
    obtain ⟨k₂, v₂⟩ := hd
    by_cases h : k₂ = k <;> simp [aset, alookup, h, ih]

theorem alookup_aset_ne {α : Type} {k k₂ : String} (v : α) (l : List (String × α))
    (h : k₂ ≠ k) : alookup k₂ (aset k v l) = alookup k₂ l := by
  have h₂ : k ≠ k₂ := Ne.symm h
  induction l with
  | nil => simp [aset, alookup, h₂]
  | cons hd tl ih =>
    obtain ⟨k₃, v₃⟩ := hd
    by_cases h₃ : k₃ = k
    · subst h₃
      simp [aset, alookup, h₂]
    · simp only [aset, if_neg h₃, alookup]
      by_cases h₄ : k₃ = k₂ <;> simp [h₄, ih]

theorem alookup_seedAll_not_mem (m : List (String × Int)) (l : Ledger)
    (k : String) (h : k ∉ m.map Prod.fst) :
    alookup k (seedAll m l) = alookup k l := by
  induction m generalizing l with
  | nil => rfl
  | cons hd tl ih =>
    simp only [List.map_cons, List.mem_cons, not_or] at h
    simp only [seedAll, List.foldl_cons] at *
    rw [ih (aset hd.1 hd.2 l) h.2]
    exact alookup_aset_ne hd.2 l h.1

theorem alookup_seedAll_mem (m : List (String × Int)) (l : Ledger)
    (k : String) (v : Int) (hnd : (m.map Prod.fst).Nodup) (h : (k, v) ∈ m) :
    alookup k (seedAll m l) = some v := by
  induction m generalizing l with
  | nil => cases h
  | cons hd tl ih =>
    obtain ⟨k₁, v₁⟩ := hd
    simp only [List.map_cons, List.nodup_cons] at hnd
    rcases List.mem_cons.1 h with h₁ | h₁
    · cases h₁
      rw [show seedAll ((k, v) :: tl) l = seedAll tl (aset k v l) from rfl,
        alookup_seedAll_not_mem tl _ k hnd.1]
      exact alookup_aset_self k v l
    · rw [show seedAll ((k₁, v₁) :: tl) l = seedAll tl (aset k₁ v₁ l) from rfl]
      exact ih _ hnd.2 h₁

theorem checkStockAvailability_eq_none_iff (stock : Ledger) (items : List OrderItem) :
    checkStockAvailability stock items = none ↔
      ∀ it ∈ items, itemViolation stock it = none := by
  induction items with
  | nil => simp [checkStockAvailability]
  | cons it rest ih =>
    cases hv : alookup it.sku stock with
    | none => simp [checkStockAvailability, itemViolation, hv]
    | some available =>
      by_cases hlt : available < it.qty
      · simp [checkStockAvailability, itemViolation, hv, hlt]
      · simp [checkStockAvailability, itemViolation, hv, hlt, ih]

theorem checkStockAvailability_eq_some (stock : Ledger) (items : List OrderItem)
    (e : StockError) (h : checkStockAvailability stock items = some e) :
    ∃ pre it post, items = pre ++ it :: post ∧
      (∀ p ∈ pre, itemViolation stock p = none) ∧
      itemViolation stock it = some e := by
  induction items with
  | nil => simp [checkStockAvailability] at h
  | cons it rest ih =>
    cases hv : alookup it.sku stock with
    | none =>
      simp only [checkStockAvailability, hv] at h
      exact ⟨[], it, rest, rfl, by simp, by simp [itemViolation, hv, ← Option.some_inj.1 h]⟩
    | some available =>
      by_cases hlt : available < it.qty
      · simp only [checkStockAvailability, hv, if_pos hlt] at h
        exact ⟨[], it, rest, rfl, by simp,
          by simp [itemViolation, hv, hlt, ← Option.some_inj.1 h]⟩
      · simp only [checkStockAvailability, hv, if_neg hlt] at h
        obtain ⟨pre, it₂, post, hsplit, hpre, hviol⟩ := ih h
        refine ⟨it :: pre, it₂, post, by simp [hsplit], ?_, hviol⟩
        intro p hp
        rcases List.mem_cons.1 hp with h₂ | h₂
        · subst h₂; simp [itemViolation, hv, hlt]
        · exact hpre p h₂

theorem mem_toList_of_strContains {s pat : String} (h : StrContains s pat) :
    ∀ c ∈ pat.toList, c ∈ s.toList := by
  obtain ⟨a, b, hs⟩ := h
  subst hs
  intro c hc
  simp only [String.toList, String.data_append, List.mem_append]
  exact Or.inl (Or.inr hc)

/-- Claim C1 (amended): the intake gate checks line items in order
against the snapshot and fails at the first violation; a missing SKU
yields an error naming the offending SKU, and an insufficient quantity
yields an error naming the offending SKU, the requested quantity and
the available quantity; validation succeeds exactly when every item
has its SKU present with available quantity at least the requested
one. -/
theorem c1_first_violation_short_circuit (stock : Ledger) (items : List OrderItem) :
    (checkStockAvailability stock items = none ↔
      ∀ it ∈ items, itemViolation stock it = none) ∧
    (∀ e, checkStockAvailability stock items = some e →
      ∃ pre it post, items = pre ++ it :: post ∧
        (∀ p ∈ pre, itemViolation stock p = none) ∧
        itemViolation stock it = some e) ∧
    (∀ sku, StrContains (errMsg (StockError.notExists sku)) sku) ∧
    (∀ sku req avail,
      StrContains (errMsg (StockError.insufficient sku req avail)) sku ∧
      StrContains (errMsg (StockError.insufficient sku req avail)) (toString req) ∧
      StrContains (errMsg (StockError.insufficient sku req avail)) (toString avail)) := by
  refine ⟨checkStockAvailability_eq_none_iff stock items,
    checkStockAvailability_eq_some stock items, ?_, ?_⟩
  · intro sku
    exact ⟨"product ", " does not exist", rfl⟩
  · intro sku req avail
    refine ⟨⟨"insufficient stock for ",
        ": requested " ++ toString req ++ ", available " ++ toString avail, ?_⟩,
      ⟨"insufficient stock for " ++ sku ++ ": requested ",
        ", available " ++ toString avail, ?_⟩,
      ⟨"insufficient stock for " ++ sku ++ ": requested " ++ toString req
        ++ ", available ", "", ?_⟩⟩ <;>
      simp [errMsg, String.append_assoc]

/-- Concrete instance of Claim C1: validation succeeds on an order
within stock. -/
theorem c1_first_violation_short_circuit_witness :
    checkStockAvailability initialInventory [⟨"S1", 10⟩, ⟨"S2", 30⟩] = none :=
  (c1_first_violation_short_circuit initialInventory _).1.mpr (by decide)

/-- Counterexample to Claim C1 as stated: a missing SKU fails
validation with an error that does not name the requested quantity
(nor any available quantity) — the message is only
"product A does not exist". -/
theorem c1_counterexample :
    checkStockAvailability initialInventory [⟨"A", 2⟩]
      = some (StockError.notExists "A") ∧
    ¬ StrContains (errMsg (StockError.notExists "A")) "2" := by
  refine ⟨by decide, fun h => ?_⟩
  exact absurd (mem_toList_of_strContains h '2' (by decide)) (by decide)

/-- Claim C2: an intake request with a failing line item is rejected
synchronously (409 with the validation message), zero bus writes
occur, and processing the emitted creation events (there are none)
leaves any ledger unchanged. -/
theorem c2_rejection_is_pure (stock : Ledger) (req : CreateOrderRequest)
    (orderId ts : String) (writeOk : Bool) (L : Ledger)
    (h : ∃ it ∈ req.items, itemViolation stock it ≠ none) :
    (∃ m, (ordersHandler stock req orderId ts writeOk).1 = HandlerRes.conflict m) ∧
    (ordersHandler stock req orderId ts writeOk).2 = [] ∧
    applyEvents L ((ordersHandler stock req orderId ts writeOk).2.map CreationMsg.value)
      = L := by
  have hc : checkStockAvailability stock req.items ≠ none := by
    intro hnone
    obtain ⟨it, hit, hbad⟩ := h
    exact hbad ((checkStockAvailability_eq_none_iff stock req.items).1 hnone it hit)
  obtain ⟨e, he⟩ := Option.ne_none_iff_exists'.1 hc
  refine ⟨⟨errMsg e, ?_⟩, ?_, ?_⟩ <;> simp [ordersHandler, he, applyEvents]

/-- Concrete instance of Claim C2: the request for 20 of S4 against 15
available is rejected with no bus write. -/
theorem c2_rejection_is_pure_witness :
    (ordersHandler initialInventory ⟨"u1", [⟨"S4", 20⟩], 0, "CAD"⟩ "o1" "t0" true).2
      = [] :=
  (c2_rejection_is_pure initialInventory ⟨"u1", [⟨"S4", 20⟩], 0, "CAD"⟩ "o1" "t0" true
    initialInventory (by decide)).2.1

/-- Claim C9 fails on the code: a line item with quantity 0 (and even a
negative quantity) passes `checkStockAvailability` whenever
`available < qty` is false, so the order is admitted and one creation
event reaches the bus; consuming the negative-quantity order even
increases the ledger (S1 rises from 50 to 53).  The spec requires
quantity at least 1 for validity. -/
theorem c9_nonpositive_qty_admitted :
    checkStockAvailability initialInventory [⟨"S1", 0⟩] = none ∧
    (ordersHandler initialInventory ⟨"u1", [⟨"S1", 0⟩], 0, "USD"⟩ "o1" "t0" true).1
      = HandlerRes.created "o1" ∧
    (ordersHandler initialInventory ⟨"u1", [⟨"S1", 0⟩], 0, "USD"⟩ "o1" "t0" true).2.length
      = 1 ∧
    checkStockAvailability initialInventory [⟨"S1", -3⟩] = none ∧
    Ledger.getQty "S1" (applyEvents initialInventory
      [mkOrderCreated ⟨"u1", [⟨"S1", -3⟩], 0, "USD"⟩ "o2" "t0"]) = 53 := by
  decide

/-- Counterexample to Claim C4 as stated: starting from the initial
ledger, seeding S1 to 50 and S2 to 30 does not give a snapshot of
exactly those two keys — S3 survives with quantity 25, while the
mapping the claim asserts has no S3 entry. -/
theorem c4_counterexample :
    alookup "S3" (seedAll [("S1", 50), ("S2", 30)] initialInventory) = some 25 ∧
    c4ClaimedSnapshot "S3" = none := by
  decide

/-- Claim C4 (amended): starting from the initial ledger (S1 50, S2 30,
S3 25, S4 15), seeding S1 to 50 and S2 to 30 yields exactly the
initial four-entry snapshot, and then seeding S1 to 10 yields exactly
S1 10, S2 30, S3 25, S4 15: seed overwrites per key, is not additive,
and keys not named in the seed survive unchanged (stated in general in
the last two conjuncts). -/
theorem c4_seed_overwrite_merge :
    seedAll [("S1", 50), ("S2", 30)] initialInventory
      = [("S1", 50), ("S2", 30), ("S3", 25), ("S4", 15)] ∧
    seedAll [("S1", 10)] (seedAll [("S1", 50), ("S2", 30)] initialInventory)
      = [("S1", 10), ("S2", 30), ("S3", 25), ("S4", 15)] ∧
    (∀ m l k, k ∉ m.map Prod.fst → alookup k (seedAll m l) = alookup k l) ∧
    (∀ m l k v, (m.map Prod.fst).Nodup → (k, v) ∈ m →
      alookup k (seedAll m l) = some v) :=
  ⟨by decide, by decide, alookup_seedAll_not_mem, alookup_seedAll_mem⟩

/-- Concrete instance of Claim C4: seeding S1 to 10 overwrites S1 and
leaves an unnamed key alone. -/
theorem c4_seed_overwrite_merge_witness :
    alookup "S1" (seedAll [("S1", 10)] initialInventory) = some 10 ∧
    alookup "S9" (seedAll [("S1", 10)] initialInventory) = alookup "S9" initialInventory :=
  ⟨c4_seed_overwrite_merge.2.2.2 [("S1", 10)] initialInventory "S1" 10
      (by decide) (by decide),
    c4_seed_overwrite_merge.2.2.1 [("S1", 10)] initialInventory "S9" (by decide)⟩

/-- Claim C5: for a SKU present with quantity Q, `decrement` stores and
returns Q - qty for any requested qty, applies no floor at zero (the
result is negative whenever qty exceeds Q), reports no error, and
touches no other key. -/
theorem c5_decrement_no_floor (l : Ledger) (sku : String) (Q qty : Int)
    (h : alookup sku l = some Q) :
    (decrement sku qty l).1 = Q - qty ∧
    alookup sku (decrement sku qty l).2 = some (Q - qty) ∧
    (Q < qty → (decrement sku qty l).1 < 0) ∧
    (∀ k, k ≠ sku → alookup k (decrement sku qty l).2 = alookup k l) := by
  have hq : Ledger.getQty sku l = Q := by simp [Ledger.getQty, h]
  refine ⟨by simp [decrement, hq], by simp [decrement, hq, alookup_aset_self],
    fun hlt => by simp only [decrement, hq]; omega, fun k hk => ?_⟩
  simp only [decrement]
  exact alookup_aset_ne _ _ hk

/-- Concrete instance of Claim C5: decrementing 9 from quantity 5
stores and returns -4 with no error, leaving S2 untouched. -/
theorem c5_decrement_no_floor_witness :
    (decrement "S1" 9 [("S1", 5), ("S2", 3)]).1 = 5 - 9 ∧
    alookup "S1" (decrement "S1" 9 [("S1", 5), ("S2", 3)]).2 = some (5 - 9) ∧
    (decrement "S1" 9 [("S1", 5), ("S2", 3)]).1 < 0 ∧
    alookup "S2" (decrement "S1" 9 [("S1", 5), ("S2", 3)]).2 = some 3 := by
  have h := c5_decrement_no_floor [("S1", 5), ("S2", 3)] "S1" 5 9 (by decide)
  exact ⟨h.1, h.2.1, h.2.2.1 (by decide), (h.2.2.2 "S2" (by decide)).trans (by decide)⟩

/-- Claim C10: decrementing a SKU absent from the ledger treats the
missing quantity as 0, inserts the SKU with quantity -qty, returns
-qty with no error, and leaves every other key unchanged. -/
theorem c10_decrement_unknown_sku (l : Ledger) (sku : String) (qty : Int)
    (h : alookup sku l = none) :
    (decrement sku qty l).1 = -qty ∧
    alookup sku (decrement sku qty l).2 = some (-qty) ∧
    (∀ k, k ≠ sku → alookup k (decrement sku qty l).2 = alookup k l) := by
  have hq : Ledger.getQty sku l = 0 := by simp [Ledger.getQty, h]
  refine ⟨by simp [decrement, hq], by simp [decrement, hq, alookup_aset_self],
    fun k hk => ?_⟩
  simp only [decrement]
  exact alookup_aset_ne _ _ hk

/-- Concrete instance of Claim C10: decrementing 4 from the unknown SKU
S9 inserts S9 with quantity -4 and returns -4. -/
theorem c10_decrement_unknown_sku_witness :
    (decrement "S9" 4 [("S2", 3)]).1 = -4 ∧
    alookup "S9" (decrement "S9" 4 [("S2", 3)]).2 = some (-4) ∧
    alookup "S2" (decrement "S9" 4 [("S2", 3)]).2 = some 3 := by
  have h := c10_decrement_unknown_sku [("S2", 3)] "S9" 4 (by decide)
  exact ⟨h.1, h.2.1, (h.2.2 "S2" (by decide)).trans (by decide)⟩

theorem retryGo_attempts_le (outcome : Nat → Option String) (cancelled : Nat → Bool)
    (fuel : Nat) : ∀ attempt sleeps,
    (retryGo outcome cancelled attempt sleeps fuel).attemptsUsed ≤ attempt + fuel + 1 := by
  induction fuel with
  | zero =>
    intro attempt sleeps
    cases h : outcome attempt <;>
      simp [retryGo, h, WriteResult.attemptsUsed]
  | succ fuel ih =>
    intro attempt sleeps
    cases h : outcome attempt with
    | none => simp [retryGo, h, WriteResult.attemptsUsed]
    | some e =>
      by_cases hc : cancelled attempt
      · simp [retryGo, h, hc, WriteResult.attemptsUsed]
      · simp only [retryGo, h, hc, if_neg, Bool.false_eq_true, if_false]
        calc (retryGo outcome cancelled (attempt + 1)
                (sleeps ++ [backoffMs attempt]) fuel).attemptsUsed
            ≤ attempt + 1 + fuel + 1 := ih (attempt + 1) (sleeps ++ [backoffMs attempt])
          _ = attempt + (fuel + 1) + 1 := by omega

theorem retryGo_sleeps_shape (outcome : Nat → Option String) (cancelled : Nat → Bool)
    (fuel : Nat) : ∀ attempt sleeps, ∃ k, k ≤ fuel ∧
    (retryGo outcome cancelled attempt sleeps fuel).sleepsDone
      = sleeps ++ (List.range' attempt k).map backoffMs := by
  induction fuel with
  | zero =>
    intro attempt sleeps
    refine ⟨0, le_refl 0, ?_⟩
    cases h : outcome attempt <;>
      simp [retryGo, h, WriteResult.sleepsDone]
  | succ fuel ih =>
    intro attempt sleeps
    cases h : outcome attempt with
    | none => exact ⟨0, Nat.zero_le _, by simp [retryGo, h, WriteResult.sleepsDone]⟩
    | some e =>
      by_cases hc : cancelled attempt
      · exact ⟨0, Nat.zero_le _, by simp [retryGo, h, hc, WriteResult.sleepsDone]⟩
      · obtain ⟨k, hk, hs⟩ := ih (attempt + 1) (sleeps ++ [backoffMs attempt])
        refine ⟨k + 1, by omega, ?_⟩
        rw [show retryGo outcome cancelled attempt sleeps (fuel + 1)
              = retryGo outcome cancelled (attempt + 1)
                  (sleeps ++ [backoffMs attempt]) fuel by simp [retryGo, h, hc]]
        rw [hs, List.range'_succ, List.map_cons, List.append_assoc]
        rfl

theorem retryGo_exhausts (outcome : Nat → Option String) (cancelled : Nat → Bool)
    (errs : Nat → String) (hall : ∀ a, outcome a = some (errs a))
    (hnc : ∀ a, cancelled a = false) (fuel : Nat) : ∀ attempt sleeps,
    retryGo outcome cancelled attempt sleeps fuel
      = .exhausted (attempt + fuel + 1)
          (sleeps ++ (List.range' attempt fuel).map backoffMs)
          (errs (attempt + fuel)) := by
  induction fuel with
  | zero =>
    intro attempt sleeps
    simp [retryGo, hall attempt]
  | succ fuel ih =>
    intro attempt sleeps
    rw [show retryGo outcome cancelled attempt sleeps (fuel + 1)
          = retryGo outcome cancelled (attempt + 1)
              (sleeps ++ [backoffMs attempt]) fuel by
        simp [retryGo, hall attempt, hnc attempt]]
    rw [ih (attempt + 1) (sleeps ++ [backoffMs attempt])]
    rw [List.range'_succ, List.map_cons, List.append_assoc]
    refine congrArg₂ (fun n e => WriteResult.exhausted n
      (sleeps ++ (backoffMs attempt :: (List.range' (attempt + 1) fuel).map backoffMs)) e)
      (by omega) (congrArg errs (by omega))

theorem retryGo_cancelled_at (outcome : Nat → Option String) (cancelled : Nat → Bool)
    (a : Nat) (hfail : ∀ b, b ≤ a → outcome b ≠ none)
    (hnc : ∀ b, b < a → cancelled b = false) (hca : cancelled a = true)
    (fuel : Nat) : ∀ attempt sleeps, attempt ≤ a → a < attempt + fuel →
    retryGo outcome cancelled attempt sleeps fuel
      = .ctxCancelled (a + 1)
          (sleeps ++ (List.range' attempt (a - attempt)).map backoffMs) := by
  induction fuel with
  | zero => intro attempt sleeps hle hlt; omega
  | succ fuel ih =>
    intro attempt sleeps hle hlt
    cases ho : outcome attempt with
    | none => exact absurd ho (hfail attempt hle)
    | some e =>
      rcases Nat.lt_or_ge attempt a with hlt₂ | hge
      · rw [show retryGo outcome cancelled attempt sleeps (fuel + 1)
              = retryGo outcome cancelled (attempt + 1)
                  (sleeps ++ [backoffMs attempt]) fuel by
            simp [retryGo, ho, hnc attempt hlt₂]]
        rw [ih (attempt + 1) (sleeps ++ [backoffMs attempt]) hlt₂ (by omega)]
        rw [show a - attempt = (a - (attempt + 1)) + 1 by omega,
          List.range'_succ, List.map_cons, List.append_assoc]
        rfl
      · have ha : attempt = a := by omega
        subst ha
        simp [retryGo, ho, hca, WriteResult.sleepsDone]

/-- Claim C6: for every message, `writeWithRetry` makes at most
`maxRetries + 1` attempts (5 at the call site); the completed sleeps
between consecutive attempts are exactly 100 * 2 ^ attempt
milliseconds for an initial segment of attempts, and at the deployed
`maxRetries = 4` every sleep is bounded by the 800 ms ceiling; when
every attempt up to some a fails and the context fires during the
backoff after attempt a, the call aborts mid-backoff with the context
error and makes no further attempt; and when all attempts fail with
the context quiet, the call surfaces the last delivery error after
exactly `maxRetries + 1` attempts — the message is dropped, no retry
state survives the call. -/
theorem c6_write_retry_policy (outcome : Nat → Option String)
    (cancelled : Nat → Bool) (maxRetries : Nat) :
    (writeWithRetry outcome cancelled maxRetries).attemptsUsed ≤ maxRetries + 1 ∧
    (∃ k, k ≤ maxRetries ∧
      (writeWithRetry outcome cancelled maxRetries).sleepsDone
        = (List.range k).map backoffMs) ∧
    (maxRetries = 4 →
      ∀ d ∈ (writeWithRetry outcome cancelled maxRetries).sleepsDone, d ≤ 800) ∧
    (∀ errs : Nat → String, (∀ a, outcome a = some (errs a)) →
      (∀ a, cancelled a = false) →
      writeWithRetry outcome cancelled maxRetries
        = .exhausted (maxRetries + 1) ((List.range maxRetries).map backoffMs)
            (errs maxRetries)) ∧
    (∀ a, a < maxRetries → (∀ b, b ≤ a → outcome b ≠ none) →
      (∀ b, b < a → cancelled b = false) → cancelled a = true →
      writeWithRetry outcome cancelled maxRetries
        = .ctxCancelled (a + 1) ((List.range a).map backoffMs)) := by
  refine ⟨?_, ?_, ?_, ?_, ?_⟩
  · have h := retryGo_attempts_le outcome cancelled maxRetries 0 []
    simpa [writeWithRetry] using h
  · obtain ⟨k, hk, hs⟩ := retryGo_sleeps_shape outcome cancelled maxRetries 0 []
    exact ⟨k, hk, by simpa [writeWithRetry, List.range_eq_range'] using hs⟩
  · rintro rfl d hd
    obtain ⟨k, hk, hs⟩ := retryGo_sleeps_shape outcome cancelled 4 0 []
    rw [show (writeWithRetry outcome cancelled 4).sleepsDone
          = (List.range' 0 k).map backoffMs by simpa [writeWithRetry] using hs] at hd
    obtain ⟨a, ha, rfl⟩ := List.mem_map.1 hd
    have ha₂ : a < 4 := by
      have := List.mem_range'_1.1 ha
      omega
    have : (2 : Nat) ^ a ≤ 2 ^ 3 := Nat.pow_le_pow_right (by omega) (by omega)
    simp only [backoffMs]
    omega
  · intro errs hall hnc
    have h := retryGo_exhausts outcome cancelled errs hall hnc maxRetries 0 []
    simpa [writeWithRetry, List.range_eq_range'] using h
  · intro a hlt hfail hnc hca
    have h := retryGo_cancelled_at outcome cancelled a hfail hnc hca maxRetries 0 []
      (Nat.zero_le a) (by omega)
    simpa [writeWithRetry, List.range_eq_range'] using h

/-- Concrete instance of Claim C6: five failing attempts against a
quiet context sleep 100, 200, 400, 800 ms and surface the last
error. -/
theorem c6_write_retry_policy_witness :
    writeWithRetry (fun _ => some "boom") (fun _ => false) 4
      = WriteResult.exhausted 5 [100, 200, 400, 800] "boom" := by
  rw [(c6_write_retry_policy (fun _ => some "boom") (fun _ => false) 4).2.2.2.1
    (fun _ => "boom") (fun _ => rfl) (fun _ => rfl)]
  decide

/-- Claim C7: the status pipeline turns each decoded creation event
into exactly one status record (the two lists correspond pointwise),
keyed by the order identifier of the input event, whose status is
unconditionally PAID and never FAILED and whose order identifier
equals the input order identifier. -/
theorem c7_exactly_one_paid_status (ts : String) (events : List OrderCreated) :
    List.Forall₂ (fun oc m =>
      m.key = oc.orderId ∧ m.value.orderId = oc.orderId ∧
      m.value.status = "PAID" ∧ m.value.status ≠ "FAILED")
      events (processLoop ts events) := by
  induction events with
  | nil => simp [processLoop]
  | cons oc rest ih =>
    simp only [processLoop, List.map_cons] at *
    refine List.Forall₂.cons ⟨rfl, rfl, rfl, ?_⟩ ih
    simp [statusMsgFor]

/-- Concrete instance of Claim C7: one input event yields one output
record. -/
theorem c7_exactly_one_paid_status_witness :
    (processLoop "t0" [OrderCreated.mk "o1" "u1" [] 0 "USD" "c0"]).length = 1 := by
  have h := (c7_exactly_one_paid_status "t0"
    [OrderCreated.mk "o1" "u1" [] 0 "USD" "c0"]).length_eq
  simpa using h.symm

theorem forall₂_enqueue (st : OrderStatus) (chans : List NotifChan) :
    List.Forall₂ (fun ch ch₂ =>
      (ch.buf.length < ch.cap → ch₂ = ⟨ch.cap, ch.buf ++ [st]⟩) ∧
      (¬ ch.buf.length < ch.cap → ch₂ = ch))
      chans (chans.map (fun ch => enqueueNonBlocking ch st)) := by
  induction chans with
  | nil => simp
  | cons ch rest ih =>
    refine List.Forall₂.cons ⟨fun hlt => ?_, fun hge => ?_⟩ ih
    · simp [enqueueNonBlocking, hlt]
    · simp [enqueueNonBlocking, hge]

/-- Claim C8: `broadcast` visits the registry pointwise; an entry for
exactly the order identifier extracted from the payload has each of
its channels enqueue the payload when the buffer has space and stay
unchanged (silently missing the update) when the buffer is full, and
every entry for a different order identifier is untouched. -/
theorem c8_broadcast_nonblocking (st : OrderStatus) (subs : Subs) :
    List.Forall₂ (fun e e₂ =>
      e₂.1 = e.1 ∧
      (e.1 ≠ st.orderId → e₂ = e) ∧
      (e.1 = st.orderId →
        List.Forall₂ (fun ch ch₂ =>
          (ch.buf.length < ch.cap → ch₂ = ⟨ch.cap, ch.buf ++ [st]⟩) ∧
          (¬ ch.buf.length < ch.cap → ch₂ = ch)) e.2 e₂.2))
      subs (broadcast st subs) := by
  induction subs with
  | nil => simp [broadcast]
  | cons e rest ih =>
    simp only [broadcast, List.map_cons] at *
    by_cases hk : e.1 = st.orderId
    · refine List.Forall₂.cons ⟨by simp [hk], fun hne => absurd hk hne, fun _ => ?_⟩ ih
      simpa [hk] using forall₂_enqueue st e.2
    · exact List.Forall₂.cons
        ⟨by simp [hk], fun _ => by simp [hk], fun heq => absurd heq hk⟩ ih

/-- Concrete instance of Claim C8: broadcasting preserves the shape of
the registry. -/
theorem c8_broadcast_nonblocking_witness :
    [("o1", [(⟨8, []⟩ : NotifChan), ⟨0, []⟩]), ("o2", [⟨8, []⟩])].length
      = (broadcast ⟨"o1", "PAID", "", "t1"⟩
          [("o1", [⟨8, []⟩, ⟨0, []⟩]), ("o2", [⟨8, []⟩])]).length :=
  (c8_broadcast_nonblocking ⟨"o1", "PAID", "", "t1"⟩
    [("o1", [⟨8, []⟩, ⟨0, []⟩]), ("o2", [⟨8, []⟩])]).length_eq

theorem getQty_aset_self (sku : String) (v : Int) (l : Ledger) :
    Ledger.getQty sku (aset sku v l) = v := by
  simp [Ledger.getQty, alookup_aset_self]

theorem decStep_preserves_inv (sku : String) (q0 q1 Q : Int) (s : DecSys) (who : Bool)
    (h : DecInv sku q0 q1 Q s) : DecInv sku q0 q1 Q (decStep sku q0 q1 s who) := by
  obtain ⟨lk, inv, ⟨pc0, l0⟩, ⟨pc1, l1⟩⟩ := s
  simp only [DecInv] at h ⊢
  obtain ⟨h0, h1, hL0, hL1, hQ, he0, he1⟩ := h
  cases who
  case false =>
    interval_cases pc0
    · rcases lk with _ | b
      · have hp1 : ¬(1 ≤ pc1 ∧ pc1 ≤ 3) := fun hp => Option.noConfusion (hL1.2 hp)
        simp only [decStep, reduceIte]
        exact ⟨by omega, h1, by simp, iff_of_false (by simp) hp1,
          by simpa using hQ, by simp, he1⟩
      · simp only [decStep]
        rw [if_neg (show ¬(some b = none) by simp)]
        exact ⟨Nat.zero_le 4, h1, hL0, hL1, hQ, he0, he1⟩
    · have hlk : lk = some false := hL0.2 (by omega)
      simp only [decStep]
      exact ⟨by omega, h1, iff_of_true hlk (by omega), hL1,
        by simpa using hQ, by simp, he1⟩
    · have hlk : lk = some false := hL0.2 (by omega)
      have hp1 : ¬(1 ≤ pc1 ∧ pc1 ≤ 3) := fun hp => by
        have h₂ := hL1.2 hp
        rw [hlk] at h₂
        exact Bool.noConfusion (Option.some.inj h₂)
      have hl0 : l0 = Ledger.getQty sku inv := he0 rfl
      have hpc1 : pc1 = 0 ∨ pc1 = 4 := by omega
      simp only [decStep]
      refine ⟨by omega, h1, iff_of_true hlk (by omega),
        iff_of_false (by rw [hlk]; simp) hp1, ?_, by simp,
        fun h₅ => absurd ⟨by omega, by omega⟩ hp1⟩
      rw [getQty_aset_self]
      rcases hpc1 with h₄ | h₄ <;> subst h₄ <;> simp at hQ ⊢ <;> omega
    · have hlk : lk = some false := hL0.2 (by omega)
      have hp1 : ¬(1 ≤ pc1 ∧ pc1 ≤ 3) := fun hp => by
        have h₂ := hL1.2 hp
        rw [hlk] at h₂
        exact Bool.noConfusion (Option.some.inj h₂)
      simp only [decStep]
      exact ⟨by omega, h1, iff_of_false (by simp) (by omega),
        iff_of_false (by simp) hp1, by simpa using hQ, by simp, he1⟩
    · simp only [decStep]
      exact ⟨by omega, h1, hL0, hL1, hQ, he0, he1⟩
  case true =>
    interval_cases pc1
    · rcases lk with _ | b
      · have hp0 : ¬(1 ≤ pc0 ∧ pc0 ≤ 3) := fun hp => Option.noConfusion (hL0.2 hp)
        simp only [decStep, reduceIte]
        exact ⟨h0, by omega, iff_of_false (by simp) hp0, by simp,
          by simpa using hQ, he0, by simp⟩
      · simp only [decStep]
        rw [if_neg (show ¬(some b = none) by simp)]
        exact ⟨h0, Nat.zero_le 4, hL0, hL1, hQ, he0, he1⟩
    · have hlk : lk = some true := hL1.2 (by omega)
      simp only [decStep]
      exact ⟨h0, by omega, hL0, iff_of_true hlk (by omega),
        by simpa using hQ, he0, by simp⟩
    · have hlk : lk = some true := hL1.2 (by omega)
      have hp0 : ¬(1 ≤ pc0 ∧ pc0 ≤ 3) := fun hp => by
        have h₂ := hL0.2 hp
        rw [hlk] at h₂
        exact Bool.noConfusion (Option.some.inj h₂)
      have hl1 : l1 = Ledger.getQty sku inv := he1 rfl
      have hpc0 : pc0 = 0 ∨ pc0 = 4 := by omega
      simp only [decStep]
      refine ⟨h0, by omega, iff_of_false (by rw [hlk]; simp) hp0,
        iff_of_true hlk (by omega), ?_,
        fun h₅ => absurd ⟨by omega, by omega⟩ hp0, by simp⟩
      rw [getQty_aset_self]
      rcases hpc0 with h₄ | h₄ <;> subst h₄ <;> simp at hQ ⊢ <;> omega
    · have hlk : lk = some true := hL1.2 (by omega)
      have hp0 : ¬(1 ≤ pc0 ∧ pc0 ≤ 3) := fun hp => by
        have h₂ := hL0.2 hp
        rw [hlk] at h₂
        exact Bool.noConfusion (Option.some.inj h₂)
      simp only [decStep]
      exact ⟨h0, by omega, iff_of_false (by simp) hp0,
        iff_of_false (by simp) (by omega), by simpa using hQ, he0, by simp⟩
    · simp only [decStep]
      exact ⟨h0, by omega, hL0, hL1, hQ, he0, he1⟩

theorem decRun_preserves_inv (sku : String) (q0 q1 Q : Int) (s : DecSys)
    (sched : List Bool) (h : DecInv sku q0 q1 Q s) :
    DecInv sku q0 q1 Q (decRun sku q0 q1 s sched) := by
  induction sched generalizing s with
  | nil => exact h
  | cons who rest ih => exact ih _ (decStep_preserves_inv sku q0 q1 Q s who h)

theorem decInit_inv (sku : String) (q0 q1 Q : Int) (l : Ledger)
    (hQ : Ledger.getQty sku l = Q) : DecInv sku q0 q1 Q (decInit l) := by
  simp only [DecInv, decInit]
  exact ⟨by omega, by omega, iff_of_false (by simp) (by omega),
    iff_of_false (by simp) (by omega), by simpa using hQ, by simp, by simp⟩

/-- Claim C3: in the interleaving model of `decrement`, whose critical
section is delimited by the mutex exactly as in the source, any
schedule under which both concurrent callers complete leaves the
ledger quantity of the SKU at exactly Q - q0 - q1 — no lost update,
for every starting quantity Q and decrements q0, q1. -/
theorem c3_concurrent_decrement_no_lost_update (sku : String) (Q q0 q1 : Int)
    (l : Ledger) (sched : List Bool) (hQ : Ledger.getQty sku l = Q)
    (h0 : (decRun sku q0 q1 (decInit l) sched).th0.pc = 4)
    (h1 : (decRun sku q0 q1 (decInit l) sched).th1.pc = 4) :
    Ledger.getQty sku (decRun sku q0 q1 (decInit l) sched).inv = Q - q0 - q1 := by
  have hinv := decRun_preserves_inv sku q0 q1 Q (decInit l) sched
    (decInit_inv sku q0 q1 Q l hQ)
  simp only [DecInv] at hinv
  obtain ⟨-, -, -, -, hQ2, -, -⟩ := hinv
  rw [h0, h1] at hQ2
  simpa using hQ2

/-- Concrete instance of Claim C3: with 50 on hand and concurrent
decrements of 7 and 5 under a schedule in which the second caller
first finds the mutex held, the final quantity is 38. -/
theorem c3_concurrent_decrement_no_lost_update_witness :
    Ledger.getQty "S1" (decRun "S1" 7 5 (decInit [("S1", 50)])
      [false, true, false, false, false, true, true, true, true]).inv = 50 - 7 - 5 :=
  c3_concurrent_decrement_no_lost_update "S1" 50 7 5 [("S1", 50)]
    [false, true, false, false, false, true, true, true, true]
    (by decide) (by decide) (by decide)
